import Mathlib

/-!
Verification of the job-orchestration core of a video-transcription web app
(`app.py`).  The development shallowly embeds the pure parts of the program:

* the merge engine (`merge_transcript`, `_format_output`, `fmt_ts`),
* the cache-key function (`_url_hash`, including a faithful SHA-256),
* the job state machine (`start`, `_run_job`, the `/result` route).

Python strings are modelled as Lean `String`; Python float timestamps are
modelled as `ℚ` (all arithmetic performed on them — `+`, `/ 2`, `//`, `%`,
comparisons — is exact on the inputs of interest, so `ℚ` is a faithful
model of the observable behaviour); Python's `\w` character class is
modelled over ASCII as alphanumeric-or-underscore.
-/

namespace Tripper

/-! ## Python string primitives -/

/-- The whitespace characters recognised by Python's `str.strip` / `\s`
(ASCII range). -/
def isPySpace (c : Char) : Bool :=
  c == ' ' || c == '\t' || c == '\n' || c == '\r' || c == '\x0b' || c == '\x0c'

/-- `str.strip()` on a list of characters: drop whitespace from both ends. -/
def pyStripL (l : List Char) : List Char :=
  ((l.dropWhile isPySpace).reverse.dropWhile isPySpace).reverse

/-- `str.strip()` on a `String`. -/
def pyStripS (s : String) : String :=
  ⟨pyStripL s.data⟩

/-- Python slicing `s[:n]` (by code points). -/
def pyTake (n : Nat) (s : String) : String :=
  ⟨s.data.take n⟩

/-- Python's substring test `pat in s`, on character lists. -/
def containsSub (s pat : List Char) : Bool :=
  match s with
  | [] => pat.isPrefixOf ([] : List Char)
  | _ :: rest => pat.isPrefixOf s || containsSub rest pat

/-- Python's `sep.join(parts)`. -/
def joinSep (sep : String) : List String → String
  | [] => ""
  | [x] => x
  | x :: xs => x ++ sep ++ joinSep sep xs

/-! ## Merge engine (`merge_transcript`, app.py lines 182–251)

One recognised speech segment `{start, end, text}`.  The Python dict key
`end` is a Lean keyword, so the field is called `stop`. -/

structure Seg where
  start : ℚ
  stop : ℚ
  text : String
  deriving DecidableEq, Repr

/-! The generic `ℚ` field operations are `@[irreducible]`, which blocks
kernel evaluation of concrete instances, so the few arithmetic operations
the merge engine performs on timestamps are defined directly on
numerator/denominator (all kernel-computable) and certified against the
source expressions by the `…_eq` bridge lemmas right below each one. -/

/-- Python's float floor division `a // n` (and the `int(…)` around it) for
a nonnegative integer divisor: `⌊a / n⌋`.  See `pyFloorDiv_eq`. -/
def pyFloorDiv (a : ℚ) (n : Nat) : Int :=
  Rat.floor (Rat.divInt a.num (a.den * n))

/-- Python's float modulo `a % n` for a positive integer divisor:
`a - n * ⌊a / n⌋`, always in `[0, n)`.  See `pyMod_eq`. -/
def pyMod (a : ℚ) (n : Nat) : ℚ :=
  Rat.divInt (a.num - (a.den * n : Int) * pyFloorDiv a n) a.den

/-- The segment midpoint `(seg["start"] + seg["end"]) / 2` of
`merge_transcript`.  See `midpoint_eq`. -/
def midpoint (a b : ℚ) : ℚ :=
  Rat.divInt (a.num * b.den + b.num * a.den) (2 * (a.den * b.den))

theorem ratFloor_eq_floor (q : ℚ) : Rat.floor q = ⌊q⌋ :=
  Rat.floor_def' q ▸ Rat.floor_def.symm

theorem pyFloorDiv_eq (a : ℚ) (n : Nat) (hn : n ≠ 0) :
    pyFloorDiv a n = ⌊a / (n : ℚ)⌋ := by
  have hden : ((a.den : ℚ)) ≠ 0 := Nat.cast_ne_zero.mpr a.den_nz
  have hnq : ((n : ℚ)) ≠ 0 := Nat.cast_ne_zero.mpr hn
  rw [pyFloorDiv, ratFloor_eq_floor, Rat.divInt_eq_div]
  congr 1
  push_cast
  rw [div_mul_eq_div_div, Rat.num_div_den]

theorem num_eq_mul_den (a : ℚ) : ((a.num : ℚ)) = a * a.den := by
  have ha : ((a.den : ℚ)) ≠ 0 := Nat.cast_ne_zero.mpr a.den_nz
  exact (div_eq_iff ha).mp (Rat.num_div_den a)

theorem pyMod_eq (a : ℚ) (n : Nat) (hn : n ≠ 0) :
    pyMod a n = a - n * ⌊a / (n : ℚ)⌋ := by
  have ha : ((a.den : ℚ)) ≠ 0 := Nat.cast_ne_zero.mpr a.den_nz
  rw [pyMod, Rat.divInt_eq_div, pyFloorDiv_eq a n hn,
    div_eq_iff (by exact_mod_cast ha)]
  push_cast [num_eq_mul_den]
  ring

theorem midpoint_eq (a b : ℚ) : midpoint a b = (a + b) / 2 := by
  have ha : ((a.den : ℚ)) ≠ 0 := Nat.cast_ne_zero.mpr a.den_nz
  have hb : ((b.den : ℚ)) ≠ 0 := Nat.cast_ne_zero.mpr b.den_nz
  rw [midpoint, Rat.divInt_eq_div, div_eq_div_iff]
  · push_cast [num_eq_mul_den]
    ring
  · push_cast
    exact mul_ne_zero two_ne_zero (mul_ne_zero ha hb)
  · exact two_ne_zero

/-- Zero-padding to (at least) two digits, Python's `f"{i:02d}"`. -/
def pad2 (i : Int) : String :=
  let s := toString i
  if s.length < 2 then "0" ++ s else s

/-- `fmt_ts` (app.py lines 186–190): truncating `HH:MM:SS` decomposition.
`h = int(seconds // 3600)`, `m = int((seconds % 3600) // 60)`,
`s = int(seconds % 60)`; Python's float `//` and `%` are floor-based with
a nonnegative remainder, so the `int(…)` truncations agree with the
floor-valued `pyFloorDiv` (dividing by 1 for the seconds field).
`fmt_ts_eq` restates the three fields in `Int.floor` form. -/
def fmt_ts (seconds : ℚ) : String :=
  let h : Int := pyFloorDiv seconds 3600
  let m : Int := pyFloorDiv (pyMod seconds 3600) 60
  let s : Int := pyFloorDiv (pyMod seconds 60) 1
  pad2 h ++ ":" ++ pad2 m ++ ":" ++ pad2 s

theorem fmt_ts_eq (seconds : ℚ) :
    fmt_ts seconds =
      pad2 ⌊seconds / 3600⌋ ++ ":"
        ++ pad2 ⌊(seconds - 3600 * ⌊seconds / 3600⌋) / 60⌋ ++ ":"
        ++ pad2 ⌊seconds - 60 * ⌊seconds / 60⌋⌋ := by
  rw [fmt_ts, pyFloorDiv_eq seconds 3600 (by omega),
    pyFloorDiv_eq _ 60 (by omega), pyFloorDiv_eq _ 1 (by omega),
    pyMod_eq seconds 3600 (by omega), pyMod_eq seconds 60 (by omega)]
  norm_num

/-- A raw marker entry `f"\n[{fmt_ts ts}] --- SLIDE CHANGE ---\n"` as pushed
onto the `lines` list by `merge_transcript`. -/
def markerLine (ts : ℚ) : String :=
  "\n[" ++ fmt_ts ts ++ "] --- SLIDE CHANGE ---" ++ "\n"

/-- The test `"--- SLIDE CHANGE ---" in line` from `_format_output`. -/
def isMarkerLine (line : String) : Bool :=
  containsSub line.data "--- SLIDE CHANGE ---".data

/-- The initial synthetic marker of `merge_transcript` (app.py lines 202–205):
`if slide_times and slide_times[0] > 1.0` … `elif not slide_times and
segments` …. -/
def initialMarker (segments : List Seg) (slide_times : List ℚ) : List String :=
  match slide_times with
  | t :: _ => if 1 < t then [markerLine 0] else []
  | [] => if segments.isEmpty then [] else [markerLine 0]

/-- The segment walk of `merge_transcript` (app.py lines 207–220): for each
segment, first pop every still-pending marker whose timestamp is `≤` the
segment midpoint (the `while slide_idx < len(slide_times) and
slide_times[slide_idx] <= (seg["start"] + seg["end"]) / 2` loop consumes
exactly a `takeWhile` prefix), then push the segment text; after the last
segment the trailing `while` flushes all remaining markers. -/
def interleaveLines : List Seg → List ℚ → List String
  | [], ms => ms.map markerLine
  | s :: ss, ms =>
      (ms.takeWhile fun t => t ≤ midpoint s.start s.stop).map markerLine
        ++ s.text :: interleaveLines ss (ms.dropWhile fun t => t ≤ midpoint s.start s.stop)

/-- The full `lines` list built by `merge_transcript` before formatting. -/
def mergeEntries (segments : List Seg) (slide_times : List ℚ) : List String :=
  initialMarker segments slide_times ++ interleaveLines segments slide_times

/-- `if current_text: result_parts.append(" ".join(current_text))`. -/
def joinPara (current : List String) : List String :=
  if current.isEmpty then [] else [joinSep " " current]

/-- The loop of `_format_output` (app.py lines 235–249) with its
`current_text` accumulator: marker lines flush the accumulated paragraph
and are appended stripped; non-blank text lines are stripped and
accumulated; a trailing paragraph is flushed at the end. -/
def formatParts : List String → List String → List String
  | [], current => joinPara current
  | line :: rest, current =>
      if isMarkerLine line then
        joinPara current ++ pyStripS line :: formatParts rest []
      else
        if pyStripS line == "" then formatParts rest current
        else formatParts rest (current ++ [pyStripS line])

/-- `_format_output` (app.py lines 229–251): `"\n".join(result_parts) + "\n"`. -/
def _format_output (lines : List String) : String :=
  joinSep "\n" (formatParts lines []) ++ "\n"

/-- `merge_transcript` (app.py lines 182–226), the pure value it returns
(the two `_emit` progress calls in it touch only the event log and are
modelled with the pipeline's progress events). -/
def merge_transcript (segments : List Seg) (slide_times : List ℚ) : String :=
  _format_output (mergeEntries segments slide_times)

/-! ## Job state machine (`_job`, `start`, `_run_job`, `result` routes)

An event is an `(etype, data)` pair as appended by `_emit` (app.py line 61). -/

abbrev Event := String × String

/-- The `_job` global dict (app.py lines 24–29). -/
structure Job where
  running : Bool
  events : List Event
  result : Option String
  filename : Option String
  deriving DecidableEq, Repr

/-- The initial `_job` value: `{"running": False, "events": [], "result":
None, "filename": None}`. -/
def initialJob : Job :=
  { running := false, events := [], result := none, filename := none }

/-- The three synchronous outcomes of the `/start` route: HTTP 200 with
`{"ok": True}`, 409 Conflict, 400 for a missing URL. -/
inductive StartResp where
  | ok
  | conflict
  | invalidInput
  deriving DecidableEq, Repr

/-- The arguments `start` hands to the background `_run_job` thread. -/
structure LaunchArgs where
  url : String
  threshold : ℚ
  model : String
  detect_slides : Bool
  deriving DecidableEq, Repr

/-- `threshold = max(0.1, min(0.8, threshold))` (app.py line 313). -/
def clampThreshold (t : ℚ) : ℚ :=
  max (1 / 10) (min (4 / 5) t)

/-- Model-name validation (app.py lines 316–317). -/
def validModel (m : String) : String :=
  if m = "tiny" || m = "small" || m = "medium" || m = "large" then m else "medium"

/-- The synchronous part of the `/start` route (app.py lines 298–328):
check `running` first, then strip and validate the URL, then reset the
job state and launch the pipeline.  The third component is `some args`
exactly when a background `_run_job` thread is started. -/
def start (job : Job) (url : String) (threshold : ℚ) (model : String)
    (detect_slides : Bool) : StartResp × Job × Option LaunchArgs :=
  if job.running then (.conflict, job, none)
  else
    let u := pyStripS url
    if u == "" then (.invalidInput, job, none)
    else
      (.ok, { running := true, events := [], result := none, filename := none },
        some { url := u, threshold := clampThreshold threshold,
               model := validModel model, detect_slides := detect_slides })

/-- `\w` of Python's `re` module, restricted to ASCII: alphanumeric or
underscore. -/
def isWordChar (c : Char) : Bool :=
  c.isAlphanum || c == '_'

/-- The characters `re.sub(r'[^\w\s-]', '', title)` keeps. -/
def keepTitleChar (c : Char) : Bool :=
  isWordChar c || isPySpace c || c == '-'

theorem dropWhile_length_le {α : Type} (p : α → Bool) (l : List α) :
    (l.dropWhile p).length ≤ l.length := by
  induction l with
  | nil => simp
  | cons x xs ih =>
    cases hx : p x
    · simp [List.dropWhile, hx]
    · simp only [List.dropWhile, hx, List.length_cons]
      omega

/-- `re.sub(r'\s+', '_', s)` as a left-to-right scan: `inRun` records
whether the previous character was part of a whitespace run, so each
maximal whitespace run contributes exactly one underscore. -/
def collapseWsAux (inRun : Bool) : List Char → List Char
  | [] => []
  | c :: cs =>
      if isPySpace c then
        if inRun then collapseWsAux true cs else '_' :: collapseWsAux true cs
      else c :: collapseWsAux false cs

/-- `re.sub(r'\s+', '_', s)`: replace every maximal whitespace run by a
single underscore. -/
def collapseWs (l : List Char) : List Char :=
  collapseWsAux false l

/-- The filename sanitization of `_run_job` (app.py lines 273–274):
`safe_title = re.sub(r'[^\w\s-]', '', title).strip()[:80]` then
`safe_title = re.sub(r'\s+', '_', safe_title)`. -/
def sanitizeTitle (title : String) : String :=
  let s1 : String := ⟨title.data.filter keepTitleChar⟩
  let s2 := pyTake 80 (pyStripS s1)
  ⟨collapseWs s2.data⟩

/-- How a run of the pipeline body of `_run_job` can end: reaching the end
of the `try` block with a title, the transcribed segments and the slide
timestamps in hand; a `subprocess.CalledProcessError` (whose `cmd[0]` is
the external tool's name and whose `stderr` may be `None`); or any other
exception with its message. -/
inductive RunOutcome where
  | ok (title : String) (segments : List Seg) (slide_times : List ℚ)
  | calledProcessError (cmd0 : String) (stderr : Option String)
  | exn (msg : String)

/-- `_run_job` (app.py lines 257–286), abstracted over the external world:
`progress` is the list of messages the stages `_emit` before the outcome
point (all of kind `"progress"`), and `o` tells how the `try` body ends.
On success the transcript is `merge_transcript segments slide_times`, the
filename `f"{safe_title}_transcript.txt"`, and a `"done"` event is
emitted; each `except` branch emits exactly one `"error"` event, with the
`stderr` excerpt truncated by `[:500]`; the `finally` clears `running`. -/
def _run_job (job : Job) (progress : List String) (o : RunOutcome) : Job :=
  let j := { job with events := job.events ++ progress.map fun m => ("progress", m) }
  match o with
  | .ok title segments slide_times =>
      { j with
        result := some (merge_transcript segments slide_times),
        filename := some (sanitizeTitle title ++ "_transcript.txt"),
        events := j.events ++ [("done", "Done!")],
        running := false }
  | .calledProcessError cmd0 stderr =>
      { j with
        events := j.events ++
          [("error", "Error running command: " ++ cmd0 ++ " — " ++
            pyTake 500 (stderr.getD ""))],
        running := false }
  | .exn msg =>
      { j with
        events := j.events ++ [("error", "Error: " ++ msg)],
        running := false }

/-- The `/result` route (app.py lines 350–354): 404 (`none`) while
`_job["result"] is None`, otherwise the transcript with the suggested
filename. -/
def result_route (job : Job) : Option (String × Option String) :=
  match job.result with
  | none => none
  | some t => some (t, job.filename)

/-! ## Cache key (`_url_hash`, app.py lines 32–42)

The two `re.search` patterns are embedded directly: a search scans start
positions left to right and, at each position, tries the alternatives in
pattern order — exactly Python's leftmost-match semantics for these
backtracking-free patterns (both capture groups sit at the end of their
pattern, so greediness never needs to backtrack). -/

/-- The character class `[\w-]`, over ASCII. -/
def isWordDash (c : Char) : Bool :=
  c.isAlphanum || c == '_' || c == '-'

/-- `([\w-]{11})`: exactly 11 word-or-dash characters starting here. -/
def grab11 (rest : List Char) : Option (List Char) :=
  let id := rest.take 11
  if id.length = 11 && id.all isWordDash then some id else none

/-- `([\w-]+)`: the maximal (greedy) nonempty run starting here. -/
def grabPlus (rest : List Char) : Option (List Char) :=
  let id := rest.takeWhile isWordDash
  if id.isEmpty then none else some id

/-- One anchored attempt of `(?:v=|youtu\.be/)([\w-]{11})`. -/
def ytAt (s : List Char) : Option (List Char) :=
  (if "v=".data.isPrefixOf s then grab11 (s.drop 2) else none) <|>
    (if "youtu.be/".data.isPrefixOf s then grab11 (s.drop 9) else none)

/-- `re.search` for the YouTube pattern (app.py line 35). -/
def searchYt : List Char → Option (List Char)
  | [] => none
  | c :: rest => ytAt (c :: rest) <|> searchYt rest

/-- One anchored attempt of `instagram\.com/(?:reel|p)/([\w-]+)`. -/
def igAt (s : List Char) : Option (List Char) :=
  if "instagram.com/".data.isPrefixOf s then
    let r := s.drop 14
    (if "reel/".data.isPrefixOf r then grabPlus (r.drop 5) else none) <|>
      (if "p/".data.isPrefixOf r then grabPlus (r.drop 2) else none)
  else none

/-- `re.search` for the Instagram pattern (app.py line 40). -/
def searchIg : List Char → Option (List Char)
  | [] => none
  | c :: rest => igAt (c :: rest) <|> searchIg rest

/-- The content identifier `_url_hash` extracts, when one of the two URL
shapes matches (YouTube pattern first, as in the source). -/
def extractId (url : String) : Option (List Char) :=
  searchYt url.data <|> searchIg url.data

/-- The key string `_url_hash` hashes: the extracted id, or
`url.split("?")[0]` when no shape matches. -/
def keyOf (url : String) : String :=
  match extractId url with
  | some id => ⟨id⟩
  | none => ⟨url.data.takeWhile fun c => c ≠ '?'⟩

/-! ### SHA-256 (`hashlib.sha256(key.encode()).hexdigest()`)

A byte is a `Nat < 256`, a word a `Nat < 2^32`; all 32-bit arithmetic is
explicit modulo `2^32`. -/

/-- UTF-8 encoding of one code point (`str.encode()`). -/
def charUtf8 (c : Char) : List Nat :=
  let n := c.toNat
  if n < 128 then [n]
  else if n < 2048 then [192 + n / 64, 128 + n % 64]
  else if n < 65536 then [224 + n / 4096, 128 + n / 64 % 64, 128 + n % 64]
  else [240 + n / 262144, 128 + n / 4096 % 64, 128 + n / 64 % 64, 128 + n % 64]

/-- `s.encode()`: the UTF-8 bytes of a string. -/
def utf8Bytes (s : String) : List Nat :=
  s.data.flatMap charUtf8

/-- 32-bit right rotation. -/
def rotr32 (n w : Nat) : Nat :=
  ((w >>> n) ||| (w <<< (32 - n))) % 4294967296

/-- The SHA-256 round constants (fractional parts of the cube roots of the
first 64 primes). -/
def sha256K : List Nat :=
  [1116352408, 1899447441, 3049323471, 3921009573, 961987163, 1508970993, 2453635748, 2870763221,
   3624381080, 310598401, 607225278, 1426881987, 1925078388, 2162078206, 2614888103, 3248222580,
   3835390401, 4022224774, 264347078, 604807628, 770255983, 1249150122, 1555081692, 1996064986,
   2554220882, 2821834349, 2952996808, 3210313671, 3336571891, 3584528711, 113926993, 338241895,
   666307205, 773529912, 1294757372, 1396182291, 1695183700, 1986661051, 2177026350, 2456956037,
   2730485921, 2820302411, 3259730800, 3345764771, 3516065817, 3600352804, 4094571909, 275423344,
   430227734, 506948616, 659060556, 883997877, 958139571, 1322822218, 1537002063, 1747873779,
   1955562222, 2024104815, 2227730452, 2361852424, 2428436474, 2756734187, 3204031479, 3329325298]

/-- The eight SHA-256 working variables. -/
structure Sha8 where
  a : Nat
  b : Nat
  c : Nat
  d : Nat
  e : Nat
  f : Nat
  g : Nat
  hh : Nat

/-- The SHA-256 initial hash value (fractional parts of the square roots of
the first 8 primes). -/
def sha256H0 : Sha8 :=
  ⟨1779033703, 3144134277, 1013904242, 2773480762, 1359893119, 2600822924, 528734635, 1541459225⟩

/-- Big-endian 16-word view of a 64-byte chunk. -/
def toWords : List Nat → List Nat
  | b0 :: b1 :: b2 :: b3 :: rest =>
      (b0 * 16777216 + b1 * 65536 + b2 * 256 + b3) :: toWords rest
  | _ => []

/-- One message-schedule extension step: append
`σ1(w[n-2]) + w[n-7] + σ0(w[n-15]) + w[n-16] mod 2^32`. -/
def extendStep (w : List Nat) : List Nat :=
  let n := w.length
  let g := fun i => w.getD i 0
  let s0 := rotr32 7 (g (n - 15)) ^^^ rotr32 18 (g (n - 15)) ^^^ (g (n - 15) >>> 3)
  let s1 := rotr32 17 (g (n - 2)) ^^^ rotr32 19 (g (n - 2)) ^^^ (g (n - 2) >>> 10)
  w ++ [(s1 + g (n - 7) + s0 + g (n - 16)) % 4294967296]

/-- Iterate the message-schedule extension (48 times: 16 → 64 words). -/
def extendW : Nat → List Nat → List Nat
  | 0, w => w
  | k + 1, w => extendW k (extendStep w)

/-- One compression round with round constant `ki` and schedule word `wi`. -/
def sha256Round (st : Sha8) (ki wi : Nat) : Sha8 :=
  let S1 := rotr32 6 st.e ^^^ rotr32 11 st.e ^^^ rotr32 25 st.e
  let ch := (st.e &&& st.f) ^^^ ((st.e ^^^ 4294967295) &&& st.g)
  let t1 := (st.hh + S1 + ch + ki + wi) % 4294967296
  let S0 := rotr32 2 st.a ^^^ rotr32 13 st.a ^^^ rotr32 22 st.a
  let maj := (st.a &&& st.b) ^^^ (st.a &&& st.c) ^^^ (st.b &&& st.c)
  let t2 := (S0 + maj) % 4294967296
  ⟨(t1 + t2) % 4294967296, st.a, st.b, st.c,
    (st.d + t1) % 4294967296, st.e, st.f, st.g⟩

/-- Compress one 64-byte chunk into the running hash state. -/
def compressChunk (hs : Sha8) (chunk : List Nat) : Sha8 :=
  let w := extendW 48 (toWords chunk)
  let st := (sha256K.zip w).foldl (fun st p => sha256Round st p.1 p.2) hs
  ⟨(hs.a + st.a) % 4294967296, (hs.b + st.b) % 4294967296,
   (hs.c + st.c) % 4294967296, (hs.d + st.d) % 4294967296,
   (hs.e + st.e) % 4294967296, (hs.f + st.f) % 4294967296,
   (hs.g + st.g) % 4294967296, (hs.hh + st.hh) % 4294967296⟩

/-- SHA-256 padding: `0x80`, zeros to 56 mod 64, 8-byte big-endian bit
length. -/
def padMsg (msg : List Nat) : List Nat :=
  let L := msg.length
  let bitLen := 8 * L
  let padZeros := (119 - L % 64) % 64
  msg ++ 128 :: List.replicate padZeros 0 ++
    [bitLen / 72057594037927936 % 256, bitLen / 281474976710656 % 256,
     bitLen / 1099511627776 % 256, bitLen / 4294967296 % 256,
     bitLen / 16777216 % 256, bitLen / 65536 % 256,
     bitLen / 256 % 256, bitLen % 256]

/-- Split a (padded) message into 64-byte chunks. -/
def chunks64 (l : List Nat) : List (List Nat) :=
  if h : l.isEmpty then [] else l.take 64 :: chunks64 (l.drop 64)
termination_by l.length
decreasing_by
  simp only [List.length_drop]
  have : l ≠ [] := by simpa [List.isEmpty_iff] using h
  have : 0 < l.length := List.length_pos.mpr this
  omega

/-- Big-endian bytes of one 32-bit word. -/
def wordBytes (w : Nat) : List Nat :=
  [w / 16777216 % 256, w / 65536 % 256, w / 256 % 256, w % 256]

/-- The 32-byte SHA-256 digest of a byte string. -/
def sha256bytes (msg : List Nat) : List Nat :=
  let fin := (chunks64 (padMsg msg)).foldl compressChunk sha256H0
  wordBytes fin.a ++ wordBytes fin.b ++ wordBytes fin.c ++ wordBytes fin.d ++
    wordBytes fin.e ++ wordBytes fin.f ++ wordBytes fin.g ++ wordBytes fin.hh

/-- One lowercase hexadecimal digit. -/
def hexDigit (n : Nat) : Char :=
  match n % 16 with
  | 0 => '0' | 1 => '1' | 2 => '2' | 3 => '3' | 4 => '4'
  | 5 => '5' | 6 => '6' | 7 => '7' | 8 => '8' | 9 => '9'
  | 10 => 'a' | 11 => 'b' | 12 => 'c' | 13 => 'd' | 14 => 'e'
  | _ => 'f'

/-- Both hex digits of one byte. -/
def byteHex (b : Nat) : List Char :=
  [hexDigit (b / 16), hexDigit b]

/-- `hashlib.sha256(bytes).hexdigest()`. -/
def sha256hex (msg : List Nat) : String :=
  ⟨(sha256bytes msg).flatMap byteHex⟩

/-- `_url_hash` (app.py lines 32–42):
`hashlib.sha256(key.encode()).hexdigest()[:16]`. -/
def _url_hash (url : String) : String :=
  pyTake 16 (sha256hex (utf8Bytes (keyOf url)))

/-- Hexadecimal digit test (lowercase), for stating the shape of cache
keys. -/
def isHexChar (c : Char) : Bool :=
  c.isDigit || ('a' ≤ c && c ≤ 'f')

/-! ## Claim-side definitions

These follow the *words of the spec* (not the source) and exist only to be
compared with the source-derived definitions above, for the refinement
claims. -/

/-- The marker/segment walk as claim C2 words it: before each segment's
text, *every* still-unconsumed marker with timestamp `≤` the segment
midpoint is emitted (in marker order) — a `filter`, not the maximal-prefix
`takeWhile` the code's `while slide_idx` loop performs; after the last
segment all remaining markers follow. -/
def specWalk : List Seg → List ℚ → List String
  | [], ms => ms.map markerLine
  | s :: ss, ms =>
      (ms.filter fun t => t ≤ midpoint s.start s.stop).map markerLine
        ++ s.text :: specWalk ss (ms.filter fun t => ¬(t ≤ midpoint s.start s.stop))

/-- The whole merge as described by claim C2: the code's synthetic-marker
rule and formatting around the claim's walk. -/
def claimMerge (segments : List Seg) (slide_times : List ℚ) : String :=
  _format_output (initialMarker segments slide_times ++ specWalk segments slide_times)

/-- The output blocks as claim C4 (amended) describes them, written
declaratively: the leading run of non-marker entries is stripped, blanks
dropped and the rest joined by single spaces into one paragraph; the
following marker becomes its own (stripped) block; repeat. -/
def specBlocks (entries : List String) : List String :=
  let texts := entries.takeWhile fun e => !isMarkerLine e
  let cleaned := (texts.map pyStripS).filter fun s => s ≠ ""
  match h : entries.dropWhile (fun e => !isMarkerLine e) with
  | [] => joinPara cleaned
  | m :: rest => joinPara cleaned ++ pyStripS m :: specBlocks rest
termination_by entries.length
decreasing_by
  have h1 := dropWhile_length_le (fun e => !isMarkerLine e) entries
  rw [h] at h1
  simp only [List.length_cons] at h1
  omega

/-- The filename derivation as claim C9 words it: strip characters that
are not alphanumeric, whitespace or hyphen (so underscores go too),
collapse whitespace runs to single underscores, truncate to 80
characters, append the suffix — with no trimming step. -/
def claimC9name (title : String) : String :=
  let s1 : String := ⟨title.data.filter fun c => c.isAlphanum || isPySpace c || c == '-'⟩
  let s2 : String := ⟨collapseWs s1.data⟩
  pyTake 80 s2 ++ "_transcript.txt"

/-! ## Helper lemmas -/

theorem isPrefixOf_append_self : ∀ pat y : List Char, pat.isPrefixOf (pat ++ y) = true
  | [], _ => by simp [List.isPrefixOf]
  | c :: cs, y => by
    simp [List.isPrefixOf, isPrefixOf_append_self cs y]

theorem containsSub_self_append (pat y : List Char) :
    containsSub (pat ++ y) pat = true := by
  cases pat with
  | nil =>
    cases y <;> simp [containsSub, List.isPrefixOf]
  | cons c cs =>
    simp [containsSub, isPrefixOf_append_self]

theorem containsSub_append_left (a b pat : List Char)
    (h : containsSub b pat = true) : containsSub (a ++ b) pat = true := by
  induction a with
  | nil => rw [List.nil_append]; exact h
  | cons c cs ih =>
    simp only [List.cons_append, containsSub, Bool.or_eq_true]
    exact Or.inr ih

theorem takeWhile_le_sorted (c : ℚ) :
    ∀ ms : List ℚ, List.Sorted (· ≤ ·) ms →
      (ms.takeWhile fun t => decide (t ≤ c)) = ms.filter fun t => decide (t ≤ c) := by
  intro ms hs
  induction ms with
  | nil => rfl
  | cons x xs ih =>
    rw [List.sorted_cons] at hs
    cases hx : decide (x ≤ c) with
    | true =>
      simp only [List.takeWhile_cons, List.filter_cons, hx, if_pos trivial]
      exact congrArg _ (ih hs.2)
    | false =>
      simp only [List.takeWhile_cons, List.filter_cons, hx]
      simp only [Bool.false_eq_true, if_false]
      symm
      rw [List.filter_eq_nil_iff]
      intro a ha hpa
      rw [decide_eq_true_iff] at hpa
      rw [decide_eq_false_iff_not] at hx
      exact hx (le_trans (hs.1 a ha) hpa)

theorem dropWhile_le_sorted (c : ℚ) :
    ∀ ms : List ℚ, List.Sorted (· ≤ ·) ms →
      (ms.dropWhile fun t => decide (t ≤ c)) = ms.filter fun t => !decide (t ≤ c) := by
  intro ms hs
  induction ms with
  | nil => rfl
  | cons x xs ih =>
    rw [List.sorted_cons] at hs
    cases hx : decide (x ≤ c) with
    | true =>
      simp only [List.dropWhile_cons, List.filter_cons, hx, if_pos trivial,
        Bool.not_true, Bool.false_eq_true, if_false]
      exact ih hs.2
    | false =>
      simp only [List.dropWhile_cons, List.filter_cons, hx, Bool.false_eq_true, if_false,
        Bool.not_false, if_pos trivial]
      refine congrArg _ ?_
      symm
      rw [List.filter_eq_self]
      intro a ha
      rw [decide_eq_false_iff_not] at hx
      simp only [Bool.not_eq_eq_eq_not, Bool.not_true, decide_eq_false_iff_not]
      intro hle
      exact hx (le_trans (hs.1 a ha) hle)

theorem interleave_eq_specWalk :
    ∀ (segs : List Seg) (ms : List ℚ), List.Sorted (· ≤ ·) ms →
      interleaveLines segs ms = specWalk segs ms := by
  intro segs
  induction segs with
  | nil => intro ms _; rfl
  | cons s ss ih =>
    intro ms hs
    rw [interleaveLines, specWalk,
      takeWhile_le_sorted (midpoint s.start s.stop) ms hs,
      dropWhile_le_sorted (midpoint s.start s.stop) ms hs]
    have hsorted : List.Sorted (· ≤ ·)
        (ms.filter fun t => !decide (t ≤ midpoint s.start s.stop)) :=
      List.Pairwise.sublist (List.filter_sublist ms) hs
    rw [ih _ hsorted]
    simp only [decide_not]

theorem mk_eq_empty_iff (l : List Char) : (⟨l⟩ : String) = "" ↔ l = [] := by
  constructor
  · intro h
    have := congrArg String.data h
    simpa using this
  · intro h
    rw [h]

theorem joinSep_cons_cons (sep x y : String) (ys : List String) :
    joinSep sep (x :: y :: ys) = x ++ sep ++ joinSep sep (y :: ys) := rfl

theorem joinSep_space_ne_empty (x : String) (xs : List String) (hx : x ≠ "") :
    joinSep " " (x :: xs) ≠ "" := by
  cases xs with
  | nil => simpa [joinSep] using hx
  | cons y ys =>
    intro h
    have hlen := congrArg String.length h
    rw [joinSep_cons_cons] at hlen
    simp only [String.length_append] at hlen
    have h1 : (" " : String).length = 1 := rfl
    have h2 : ("" : String).length = 0 := rfl
    omega

theorem pyStripL_nil_all_space (l : List Char) (h : pyStripL l = []) :
    ∀ c ∈ l, isPySpace c = true := by
  rw [pyStripL, List.reverse_eq_nil_iff, List.dropWhile_eq_nil_iff] at h
  intro c hc
  rw [← List.takeWhile_append_dropWhile (p := isPySpace) (l := l)] at hc
  rcases List.mem_append.mp hc with h1 | h2
  · exact List.mem_takeWhile_imp h1
  · exact h _ (List.mem_reverse.mpr h2)

theorem isPrefixOf_exists : ∀ (p l : List Char), p.isPrefixOf l = true →
    ∃ t, l = p ++ t := by
  intro p
  induction p with
  | nil => intro l _; exact ⟨l, rfl⟩
  | cons c cs ih =>
    intro l h
    cases l with
    | nil => simp [List.isPrefixOf] at h
    | cons d ds =>
      rw [List.isPrefixOf, Bool.and_eq_true, beq_iff_eq] at h
      rcases ih ds h.2 with ⟨t, ht⟩
      exact ⟨t, by rw [h.1, List.cons_append, ← ht]⟩

theorem isPrefixOf_take (n : Nat) : ∀ l : List Char, (l.take n).isPrefixOf l = true := by
  induction n with
  | zero => intro l; simp [List.isPrefixOf]
  | succ k ih =>
    intro l
    cases l with
    | nil => simp [List.isPrefixOf]
    | cons c cs => simp [List.take_succ_cons, List.isPrefixOf, ih]

theorem containsSub_exists : ∀ (l pat : List Char), containsSub l pat = true →
    ∃ x y, l = x ++ pat ++ y := by
  intro l
  induction l with
  | nil =>
    intro pat h
    cases pat with
    | nil => exact ⟨[], [], rfl⟩
    | cons c cs => simp [containsSub, List.isPrefixOf] at h
  | cons a rest ih =>
    intro pat h
    rw [containsSub, Bool.or_eq_true] at h
    rcases h with h | h
    · rcases isPrefixOf_exists _ _ h with ⟨t, ht⟩
      exact ⟨[], t, by simp [ht]⟩
    · rcases ih pat h with ⟨x, y, hxy⟩
      exact ⟨a :: x, y, by simp [hxy]⟩

theorem isMarkerLine_strip_ne (e : String) (h : isMarkerLine e = true) :
    pyStripS e ≠ "" := by
  intro hs
  rw [isMarkerLine] at h
  rcases containsSub_exists _ _ h with ⟨x, y, hxy⟩
  rw [pyStripS, mk_eq_empty_iff] at hs
  have hall := pyStripL_nil_all_space _ hs
  have hdash : ('-' : Char) ∈ e.data := by
    rw [hxy]
    refine List.mem_append.mpr (Or.inl (List.mem_append.mpr (Or.inr ?_)))
    decide
  have := hall '-' hdash
  simp [isPySpace] at this

theorem dropWhile_head_false {α : Type} (p : α → Bool) :
    ∀ (l : List α) (m : α) (rest : List α), l.dropWhile p = m :: rest → p m = false := by
  intro l
  induction l with
  | nil => intro m rest h; simp [List.dropWhile] at h
  | cons x xs ih =>
    intro m rest h
    rw [List.dropWhile_cons] at h
    by_cases hx : p x = true
    · rw [if_pos hx] at h
      exact ih m rest h
    · rw [if_neg hx] at h
      cases h
      exact Bool.not_eq_true _ ▸ Bool.of_not_eq_true hx

theorem specBlocks_unfold (entries : List String) :
    specBlocks entries =
      joinPara (((entries.takeWhile fun e => !isMarkerLine e).map pyStripS).filter fun s => s ≠ "") ++
        (match entries.dropWhile fun e => !isMarkerLine e with
         | [] => []
         | m :: rest => pyStripS m :: specBlocks rest) := by
  rw [specBlocks]
  split
  · rename_i heq
    rw [heq]
    simp
  · rename_i m rest heq
    rw [heq]

theorem formatParts_cons_marker (line : String) (rest cur : List String)
    (hm : isMarkerLine line = true) :
    formatParts (line :: rest) cur = joinPara cur ++ pyStripS line :: formatParts rest [] := by
  rw [formatParts]
  simp [hm]

theorem formatParts_cons_blank (line : String) (rest cur : List String)
    (hm : isMarkerLine line = false) (hstrip : pyStripS line = "") :
    formatParts (line :: rest) cur = formatParts rest cur := by
  rw [formatParts]
  simp [hm, hstrip]

theorem formatParts_cons_text (line : String) (rest cur : List String)
    (hm : isMarkerLine line = false) (hstrip : pyStripS line ≠ "") :
    formatParts (line :: rest) cur = formatParts rest (cur ++ [pyStripS line]) := by
  rw [formatParts]
  simp [hm, hstrip]

theorem formatParts_general :
    ∀ (n : Nat) (entries : List String), entries.length ≤ n → ∀ current : List String,
      formatParts entries current =
        joinPara (current ++
            ((entries.takeWhile fun e => !isMarkerLine e).map pyStripS).filter fun s => s ≠ "") ++
          (match entries.dropWhile fun e => !isMarkerLine e with
           | [] => []
           | m :: rest => pyStripS m :: specBlocks rest) := by
  intro n
  induction n with
  | zero =>
    intro entries hlen current
    have he : entries = [] := List.length_eq_zero.mp (Nat.le_zero.mp hlen)
    subst he
    simp [formatParts]
  | succ k ih =>
    intro entries hlen current
    cases entries with
    | nil => simp [formatParts]
    | cons line rest =>
      simp only [List.length_cons] at hlen
      by_cases hm : isMarkerLine line = true
      · rw [formatParts_cons_marker line rest current hm,
          ih rest (by omega) []]
        simp only [List.takeWhile_cons, List.dropWhile_cons, hm, Bool.not_true,
          Bool.false_eq_true, if_false, List.nil_append]
        rw [← specBlocks_unfold rest]
        simp [List.map_nil, List.filter_nil, joinPara]
      · rw [Bool.not_eq_true] at hm
        by_cases hstrip : pyStripS line = ""
        · rw [formatParts_cons_blank line rest current hm hstrip,
            ih rest (by omega) current]
          simp only [List.takeWhile_cons, List.dropWhile_cons, hm, Bool.not_false, if_true,
            List.map_cons, List.filter_cons, hstrip]
          simp
        · rw [formatParts_cons_text line rest current hm hstrip,
            ih rest (by omega) (current ++ [pyStripS line])]
          simp only [List.takeWhile_cons, List.dropWhile_cons, hm, Bool.not_false, if_true,
            List.map_cons, List.filter_cons]
          rw [if_pos (by simpa using hstrip)]
          simp [List.append_assoc]

theorem formatParts_eq_specBlocks (entries : List String) :
    formatParts entries [] = specBlocks entries := by
  rw [formatParts_general entries.length entries le_rfl []]
  simp only [List.nil_append]
  rw [← specBlocks_unfold entries]

theorem specBlocks_ne_empty :
    ∀ (n : Nat) (entries : List String), entries.length ≤ n →
      ∀ b ∈ specBlocks entries, b ≠ "" := by
  intro n
  induction n with
  | zero =>
    intro entries hlen b hb
    have he : entries = [] := List.length_eq_zero.mp (Nat.le_zero.mp hlen)
    subst he
    simp [specBlocks_unfold, joinPara] at hb
  | succ k ih =>
    intro entries hlen b hb
    rw [specBlocks_unfold] at hb
    rcases List.mem_append.mp hb with h1 | h2
    · -- paragraph block
      rw [joinPara] at h1
      split at h1
      · simp at h1
      · rename_i hne
        rcases List.mem_singleton.mp h1 with rfl
        rcases hcl : ((entries.takeWhile fun e => !isMarkerLine e).map pyStripS).filter
            (fun s => s ≠ "") with _ | ⟨c, cs⟩
        · rw [hcl] at hne
          simp at hne
        · have hc : c ≠ "" := by
            have : c ∈ ((entries.takeWhile fun e => !isMarkerLine e).map pyStripS).filter
                (fun s => s ≠ "") := by
              rw [hcl]; exact List.mem_cons_self c cs
            have := List.of_mem_filter this
            simpa using this
          exact joinSep_space_ne_empty c cs hc
    · -- marker or recursive block
      rcases hd : entries.dropWhile fun e => !isMarkerLine e with _ | ⟨m, rest⟩
      · rw [hd] at h2
        simp at h2
      · rw [hd] at h2
        rcases List.mem_cons.mp h2 with rfl | h3
        · have hm := dropWhile_head_false _ entries m rest hd
          rw [Bool.not_eq_false'] at hm
          exact isMarkerLine_strip_ne m hm
        · have hrest : rest.length ≤ k := by
            have h1 := dropWhile_length_le (fun e => !isMarkerLine e) entries
            rw [hd] at h1
            simp only [List.length_cons] at h1
            omega
          exact ih rest hrest b h3

theorem data_mk (l : List Char) : (String.mk l).data = l := rfl

theorem pyStripL_wrap (c d : Char) (mid : List Char)
    (hc : isPySpace c = false) (hd : isPySpace d = false) :
    pyStripL ('\n' :: ((c :: (mid ++ [d])) ++ ['\n'])) = c :: (mid ++ [d]) := by
  rw [pyStripL]
  rw [List.dropWhile_cons, if_pos (by decide : isPySpace '\n' = true)]
  rw [List.cons_append, List.dropWhile_cons, if_neg (by simp [hc])]
  rw [show (c :: ((mid ++ [d]) ++ ['\n'])).reverse
      = '\n' :: ((d :: mid.reverse) ++ [c]) by simp]
  rw [List.dropWhile_cons, if_pos (by decide : isPySpace '\n' = true)]
  rw [List.cons_append, List.dropWhile_cons, if_neg (by simp [hd])]
  simp

theorem markerLine_data (t : ℚ) :
    (markerLine t).data =
      '\n' :: (('[' :: (((fmt_ts t).data ++ "] --- SLIDE CHANGE --".data) ++ ['-'])) ++ ['\n']) := by
  rw [markerLine]
  rw [show ("] --- SLIDE CHANGE ---" : String) = "] --- SLIDE CHANGE --" ++ "-" from rfl]
  simp [String.data_append]

theorem strip_markerLine (t : ℚ) :
    pyStripS (markerLine t) = "[" ++ fmt_ts t ++ "] --- SLIDE CHANGE ---" := by
  apply String.ext
  rw [pyStripS, data_mk, markerLine_data,
    pyStripL_wrap '[' '-' ((fmt_ts t).data ++ "] --- SLIDE CHANGE --".data)
      (by decide) (by decide)]
  rw [show ("[" ++ fmt_ts t ++ "] --- SLIDE CHANGE ---").data
      = "[".data ++ ((fmt_ts t).data ++ "] --- SLIDE CHANGE ---".data) by
    simp [String.data_append]]
  rw [show ("] --- SLIDE CHANGE ---".data : List Char)
      = "] --- SLIDE CHANGE --".data ++ ['-'] from rfl]
  simp

theorem isMarkerLine_markerLine (t : ℚ) : isMarkerLine (markerLine t) = true := by
  rw [isMarkerLine]
  rw [show (markerLine t).data
      = ("\n[".data ++ (fmt_ts t).data ++ "] ".data) ++
        ("--- SLIDE CHANGE ---".data ++ "\n".data) by
    rw [markerLine]
    simp [String.data_append]]
  exact containsSub_append_left _ _ _ (containsSub_self_append _ _)

/-! ## Theorems -/

/-- C10: merging an empty segment list with an empty marker list yields
exactly one newline — no synthetic marker, no paragraph, only the
trailing newline of `_format_output`. -/
theorem C10_merge_empty_empty : merge_transcript [] [] = "\n" := by decide

/-- C1 (counterexample): on Scenario A's input the output does *not* start
with the paragraph "Hello world" — `merge_transcript` first emits a
synthetic `[00:00:00]` marker line, because the first slide marker (6.0)
comes after 1 second.  The claim, which says the output consists of
exactly the paragraph, the `[00:00:06]` marker and the second paragraph,
is therefore false. -/
theorem C1_counterexample :
    List.isPrefixOf "Hello world".data
      (merge_transcript [⟨0, 5, "Hello world"⟩, ⟨5, 10, "This is slide two"⟩] [6]).data
      = false := by decide

/-- C1 (amended): on Scenario A's input the output is the synthetic
`[00:00:00]` marker line, the paragraph "Hello world", the `[00:00:06]`
marker line and the paragraph "This is slide two", each on its own line,
with a trailing newline. -/
theorem C1_scenarioA :
    merge_transcript [⟨0, 5, "Hello world"⟩, ⟨5, 10, "This is slide two"⟩] [6] =
      "[00:00:00] --- SLIDE CHANGE ---\nHello world\n[00:00:06] --- SLIDE CHANGE ---\nThis is slide two\n" := by
  decide

/-- C3: the merge entry list opens with a synthetic time-zero marker
exactly when the first slide marker exists and is later than 1 second, or
no marker exists but some segment does; and on Scenario B's input (no
markers, one segment) the output opens with the `[00:00:00]` marker line
followed by the paragraph "Intro". -/
theorem C3_synthetic_marker :
    (∀ (segs : List Seg) (ms : List ℚ),
      mergeEntries segs ms = markerLine 0 :: interleaveLines segs ms ↔
        ((∃ t, ms.head? = some t ∧ 1 < t) ∨ (ms = [] ∧ segs ≠ []))) ∧
    merge_transcript [⟨0, 3, "Intro"⟩] [] =
      "[00:00:00] --- SLIDE CHANGE ---\nIntro\n" := by
  constructor
  · intro segs ms
    cases ms with
    | nil =>
      cases segs with
      | nil =>
        simp [mergeEntries, initialMarker, interleaveLines]
      | cons s ss =>
        simp [mergeEntries, initialMarker]
    | cons t ts =>
      by_cases h1t : 1 < t
      · simp [mergeEntries, initialMarker, h1t]
      · simp only [mergeEntries, initialMarker, if_neg h1t, List.nil_append,
          List.head?_cons, Option.some.injEq]
        constructor
        · intro h
          exact absurd (congrArg List.length h) (by simp)
        · rintro (⟨t', ht', h1⟩ | ⟨h, _⟩)
          · exact absurd (ht' ▸ h1) h1t
          · exact absurd h (by simp)
  · decide

/-- C2 (counterexample): with the *unsorted* marker list `[10, 2]` and one
segment `{0, 10, "x"}` (midpoint 5), the claim demands that marker 2
(`2 ≤ 5`, still unconsumed) be emitted before the segment text, but the
code's `while` loop stops at the first pending marker `10 > 5` and emits
nothing before "x" — the claim is false for arbitrary marker lists. -/
theorem C2_counterexample :
    interleaveLines [⟨0, 10, "x"⟩] [10, 2] ≠ specWalk [⟨0, 10, "x"⟩] [10, 2] ∧
    merge_transcript [⟨0, 10, "x"⟩] [10, 2] ≠ claimMerge [⟨0, 10, "x"⟩] [10, 2] := by
  exact ⟨by decide, by decide⟩

/-- C2 (amended): provided the slide-marker list is sorted ascending (which
`detect_slides` guarantees by sorting before returning), the walk emits,
before each segment's text, every still-unconsumed marker with timestamp
`≤` the segment midpoint, in marker order, and all remaining markers after
the last segment — i.e. the code's maximal-prefix loop agrees with the
claim's description, and the merge output factors through it. -/
theorem C2_walk_order (segs : List Seg) (ms : List ℚ)
    (hs : List.Sorted (· ≤ ·) ms) :
    interleaveLines segs ms = specWalk segs ms ∧
    merge_transcript segs ms = claimMerge segs ms := by
  refine ⟨interleave_eq_specWalk segs ms hs, ?_⟩
  rw [merge_transcript, claimMerge, mergeEntries, interleave_eq_specWalk segs ms hs]

theorem C2_walk_order_witness :
    List.Sorted (· ≤ ·) ([2, 7] : List ℚ) ∧
    (interleaveLines [⟨0, 5, "a"⟩, ⟨5, 12, "b"⟩] [2, 7] =
        specWalk [⟨0, 5, "a"⟩, ⟨5, 12, "b"⟩] [2, 7] ∧
      merge_transcript [⟨0, 5, "a"⟩, ⟨5, 12, "b"⟩] [2, 7] =
        claimMerge [⟨0, 5, "a"⟩, ⟨5, 12, "b"⟩] [2, 7]) :=
  ⟨by decide, C2_walk_order [⟨0, 5, "a"⟩, ⟨5, 12, "b"⟩] [2, 7] (by decide)⟩

/-- C4 (counterexample): on the input of Scenario B the merge output
contains no blank line at all — in particular none before or after its
marker line — because `_format_output` strips each raw `"\n[…]\n"` entry
before joining the blocks with single newlines; the claim's "blank line
before it and a blank line after it" would force two consecutive newline
characters somewhere in this output. -/
theorem C4_counterexample :
    containsSub (merge_transcript [⟨0, 3, "Intro"⟩] []).data ['\n', '\n'] = false ∧
    merge_transcript [⟨0, 3, "Intro"⟩] [] =
      "[00:00:00] --- SLIDE CHANGE ---" ++ "\n" ++ "Intro" ++ "\n" :=
  ⟨by decide, by decide⟩

/-- C4 (amended): for every input, the merge output is the block list
joined by single newlines plus one trailing newline, where consecutive
entries not containing the marker substring are stripped, blank ones
dropped and the rest joined by single spaces into one paragraph, and
every marker entry becomes its own stripped line
`[HH:MM:SS] --- SLIDE CHANGE ---` with *no* blank line around it (no
block is ever empty, so the joined output has no blank lines). -/
theorem C4_output_format :
    (∀ (segs : List Seg) (ms : List ℚ),
      merge_transcript segs ms =
        joinSep "\n" (specBlocks (mergeEntries segs ms)) ++ "\n") ∧
    (∀ (entries : List String) (b : String), b ∈ specBlocks entries → b ≠ "") ∧
    (∀ t : ℚ, isMarkerLine (markerLine t) = true ∧
      pyStripS (markerLine t) = "[" ++ fmt_ts t ++ "] --- SLIDE CHANGE ---") := by
  refine ⟨?_, ?_, ?_⟩
  · intro segs ms
    rw [merge_transcript, _format_output, formatParts_eq_specBlocks]
  · intro entries b hb
    exact specBlocks_ne_empty entries.length entries le_rfl b hb
  · intro t
    exact ⟨isMarkerLine_markerLine t, strip_markerLine t⟩

/-- C6: a start request received while the job is running returns Conflict,
leaves the job state untouched and launches no pipeline thread — for every
URL, including the empty one, since the `running` check precedes URL
validation. -/
theorem C6_conflict_while_running (job : Job) (url : String) (threshold : ℚ)
    (model : String) (detect : Bool) (h : job.running = true) :
    start job url threshold model detect = (.conflict, job, none) := by
  simp [start, h]

theorem C6_conflict_while_running_witness :
    (Job.mk true [("progress", "Downloading video...")] none none).running = true ∧
    start (Job.mk true [("progress", "Downloading video...")] none none) "" 0 "medium" true
      = (.conflict, Job.mk true [("progress", "Downloading video...")] none none, none) :=
  ⟨rfl, C6_conflict_while_running _ "" 0 "medium" true rfl⟩

theorem countP_progress_events (p : List String) :
    ((p.map fun s => (("progress", s) : Event)).countP fun e => e.1 == "error") = 0 := by
  induction p with
  | nil => rfl
  | cons x xs ih => simpa [List.countP_cons] using ih

/-- C7: starting from a freshly reset job (`result = None`), the result is
set after the run if and only if the run's last event is the terminal
`done` event; `/result` is 404 before any job has run, 404 after a run
that ended in either error branch, and returns the merged transcript with
its suggested filename after a successful run. -/
theorem C7_result_iff_done (j : Job) (p : List String) (o : RunOutcome)
    (cmd m t : String) (stderr : Option String) (segs : List Seg) (sl : List ℚ)
    (h : j.result = none) :
    ((_run_job j p o).result.isSome ↔
      (_run_job j p o).events.getLast?.map Prod.fst = some "done") ∧
    result_route initialJob = none ∧
    result_route (_run_job j p (.calledProcessError cmd stderr)) = none ∧
    result_route (_run_job j p (.exn m)) = none ∧
    result_route (_run_job j p (.ok t segs sl)) =
      some (merge_transcript segs sl, some (sanitizeTitle t ++ "_transcript.txt")) := by
  refine ⟨?_, rfl, ?_, ?_, ?_⟩
  · cases o <;> simp [_run_job, result_route, h, List.getLast?_concat]
  · simp [_run_job, result_route, h]
  · simp [_run_job, result_route, h]
  · simp [_run_job, result_route]

theorem C7_result_iff_done_witness :
    ((_run_job initialJob ["Downloading video..."] (.exn "boom")).result.isSome ↔
      (_run_job initialJob ["Downloading video..."] (.exn "boom")).events.getLast?.map
        Prod.fst = some "done") ∧
    result_route initialJob = none ∧
    result_route (_run_job initialJob ["Downloading video..."]
      (.calledProcessError "yt-dlp" (some "HTTP 403"))) = none ∧
    result_route (_run_job initialJob ["Downloading video..."] (.exn "oops")) = none ∧
    result_route (_run_job initialJob ["Downloading video..."] (.ok "Talk" [] [])) =
      some (merge_transcript [] [], some (sanitizeTitle "Talk" ++ "_transcript.txt")) :=
  C7_result_iff_done initialJob ["Downloading video..."] (.exn "boom")
    "yt-dlp" "oops" "Talk" (some "HTTP 403") [] [] rfl

/-- C8: each failure outcome of the pipeline body is converted into exactly
one terminal `error` event appended after the progress events (the run
itself returns normally, so nothing propagates to the `start` caller); for
an external tool failure the event message carries the tool's name
(`e.cmd[0]`) and the stderr excerpt is capped at 500 characters. -/
theorem C8_error_boundary (j : Job) (p : List String) (cmd0 m : String)
    (stderr : Option String) :
    (_run_job j p (.calledProcessError cmd0 stderr)).events =
      j.events ++ (p.map fun s => ("progress", s)) ++
        [("error", "Error running command: " ++ cmd0 ++ " — " ++ pyTake 500 (stderr.getD ""))] ∧
    (((_run_job j p (.calledProcessError cmd0 stderr)).events.drop j.events.length).countP
        fun e => e.1 == "error") = 1 ∧
    (pyTake 500 (stderr.getD "")).length ≤ 500 ∧
    containsSub
      ("Error running command: " ++ cmd0 ++ " — " ++ pyTake 500 (stderr.getD "")).data
      cmd0.data = true ∧
    (_run_job j p (.exn m)).events =
      j.events ++ (p.map fun s => ("progress", s)) ++ [("error", "Error: " ++ m)] ∧
    (((_run_job j p (.exn m)).events.drop j.events.length).countP
        fun e => e.1 == "error") = 1 := by
  refine ⟨rfl, ?_, ?_, ?_, rfl, ?_⟩
  · rw [_run_job]
    simp only [List.append_assoc, List.drop_left]
    simp [List.countP_append, countP_progress_events, List.countP_cons]
  · show (((stderr.getD "").data.take 500) : List Char).length ≤ 500
    simp [List.length_take]
  · rw [show ("Error running command: " ++ cmd0 ++ " — " ++ pyTake 500 (stderr.getD "")).data
        = "Error running command: ".data ++
            (cmd0.data ++ (" — " ++ pyTake 500 (stderr.getD "")).data) by
      simp [String.data_append]]
    exact containsSub_append_left _ _ _ (containsSub_self_append _ _)
  · rw [_run_job]
    simp only [List.append_assoc, List.drop_left]
    simp [List.countP_append, countP_progress_events, List.countP_cons]

theorem collapseWsAux_length_le (l : List Char) :
    ∀ inRun : Bool, (collapseWsAux inRun l).length ≤ l.length := by
  induction l with
  | nil => intro inRun; simp [collapseWsAux]
  | cons c cs ih =>
    intro inRun
    by_cases hc : isPySpace c = true
    · cases inRun with
      | true =>
        simp only [collapseWsAux, hc, if_true, List.length_cons]
        exact le_trans (ih true) (Nat.le_succ _)
      | false =>
        simp only [collapseWsAux, hc, if_true, List.length_cons]
        exact Nat.succ_le_succ (ih true)
    · simp only [collapseWsAux, hc, if_false, List.length_cons]
      exact Nat.succ_le_succ (ih false)

/-- C9 (counterexample): for the title `"a_b"` the claim's recipe strips
the underscore (it is neither alphanumeric nor space nor hyphen), giving
`ab_transcript.txt`, but the code's `[^\w\s-]` class *keeps* underscores,
so the run produces `a_b_transcript.txt`. -/
theorem C9_counterexample :
    (_run_job initialJob [] (.ok "a_b" [] [])).filename ≠ some (claimC9name "a_b") ∧
    (_run_job initialJob [] (.ok "a_b" [] [])).filename = some "a_b_transcript.txt" ∧
    claimC9name "a_b" = "ab_transcript.txt" := by
  refine ⟨?_, by decide, by decide⟩
  decide

/-- C9 (amended): the suggested filename is obtained from the title by
keeping only word characters (alphanumerics and underscore), whitespace
and hyphens, trimming surrounding whitespace, truncating to 80
characters, then collapsing whitespace runs to single underscores and
appending `_transcript.txt`; the sanitized base never exceeds 80
characters; and the title `"Talk: AI & Society?!"` yields
`Talk_AI_Society_transcript.txt`. -/
theorem C9_filename_sanitization :
    (∀ (j : Job) (p : List String) (t : String) (segs : List Seg) (sl : List ℚ),
      (_run_job j p (.ok t segs sl)).filename =
        some (String.mk (collapseWs
            (pyTake 80 (pyStripS ⟨t.data.filter keepTitleChar⟩)).data)
          ++ "_transcript.txt")) ∧
    (∀ t : String, (sanitizeTitle t).length ≤ 80) ∧
    (_run_job initialJob [] (.ok "Talk: AI & Society?!" [] [])).filename =
      some "Talk_AI_Society_transcript.txt" := by
  refine ⟨fun j p t segs sl => rfl, fun t => ?_, by decide⟩
  show (collapseWsAux false (pyTake 80 (pyStripS ⟨t.data.filter keepTitleChar⟩)).data).length ≤ 80
  refine le_trans (collapseWsAux_length_le _ false) ?_
  show ((pyStripS ⟨t.data.filter keepTitleChar⟩).data.take 80).length ≤ 80
  simp [List.length_take]

theorem length_mk (l : List Char) : (String.mk l).length = l.length := rfl

theorem sha256bytes_length (msg : List Nat) : (sha256bytes msg).length = 32 := by
  rw [sha256bytes]
  simp [wordBytes]

theorem flatMap_byteHex_length : ∀ l : List Nat, (l.flatMap byteHex).length = 2 * l.length := by
  intro l
  induction l with
  | nil => rfl
  | cons b bs ih =>
    simp only [List.flatMap_cons, List.length_append, ih, byteHex, List.length_cons,
      List.length_nil]
    omega

theorem sha256hex_length (msg : List Nat) : (sha256hex msg).length = 64 := by
  rw [sha256hex, length_mk, flatMap_byteHex_length, sha256bytes_length]

theorem isHexChar_hexDigit (n : Nat) : isHexChar (hexDigit n) = true := by
  have hk : n % 16 < 16 := Nat.mod_lt _ (by norm_num)
  simp only [hexDigit]
  generalize hg : n % 16 = k at hk
  interval_cases k <;> decide

theorem mem_sha256hex_isHex (msg : List Nat) :
    ∀ c ∈ (sha256hex msg).data, isHexChar c = true := by
  intro c hc
  rw [sha256hex, data_mk] at hc
  rcases List.mem_flatMap.mp hc with ⟨b, _, hcb⟩
  rcases List.mem_cons.mp hcb with rfl | hcb2
  · exact isHexChar_hexDigit _
  · rcases List.mem_singleton.mp (by simpa [byteHex] using hcb2) with rfl
    exact isHexChar_hexDigit _

/-- C5: the cache-key function is total (it is a Lean function); two URLs
from which the same content identifier is extracted — an 11-character id
after `v=` or `youtu.be/`, or an id after `instagram.com/reel/` or `/p/`
— hash to the same key; when no shape matches, the key is the hash of the
URL truncated at its first `?`; and the key is always the 16-character
prefix of the lowercase hexadecimal SHA-256 digest of the key string. -/
theorem C5_url_hash (url u1 u2 : String) (id : List Char)
    (h1 : extractId u1 = some id) (h2 : extractId u2 = some id) :
    (_url_hash url).length = 16 ∧
    (∀ c ∈ (_url_hash url).data, isHexChar c = true) ∧
    List.isPrefixOf (_url_hash url).data (sha256hex (utf8Bytes (keyOf url))).data = true ∧
    _url_hash u1 = _url_hash u2 ∧
    (extractId url = none →
      _url_hash url = pyTake 16 (sha256hex (utf8Bytes ⟨url.data.takeWhile fun c => c ≠ '?'⟩))) := by
  refine ⟨?_, ?_, ?_, ?_, ?_⟩
  · rw [_url_hash, pyTake, length_mk, List.length_take,
      show (sha256hex (utf8Bytes (keyOf url))).data.length = 64 from sha256hex_length _]
    norm_num
  · intro c hc
    rw [_url_hash, pyTake, data_mk] at hc
    exact mem_sha256hex_isHex _ c (List.mem_of_mem_take hc)
  · rw [_url_hash, pyTake, data_mk]
    exact isPrefixOf_take 16 _
  · rw [_url_hash, _url_hash, keyOf, keyOf, h1, h2]
  · intro hn
    rw [_url_hash, keyOf, hn]

theorem C5_url_hash_witness :
    extractId "https://www.youtube.com/watch?v=dQw4w9WgXcQ" = some "dQw4w9WgXcQ".data ∧
    extractId "https://youtu.be/dQw4w9WgXcQ?si=abc" = some "dQw4w9WgXcQ".data ∧
    ((_url_hash "https://example.com/page?x=1").length = 16 ∧
      (∀ c ∈ (_url_hash "https://example.com/page?x=1").data, isHexChar c = true) ∧
      List.isPrefixOf (_url_hash "https://example.com/page?x=1").data
        (sha256hex (utf8Bytes (keyOf "https://example.com/page?x=1"))).data = true ∧
      _url_hash "https://www.youtube.com/watch?v=dQw4w9WgXcQ" =
        _url_hash "https://youtu.be/dQw4w9WgXcQ?si=abc" ∧
      (extractId "https://example.com/page?x=1" = none →
        _url_hash "https://example.com/page?x=1" =
          pyTake 16 (sha256hex (utf8Bytes
            ⟨"https://example.com/page?x=1".data.takeWhile fun c => c ≠ '?'⟩)))) :=
  ⟨by decide, by decide,
    C5_url_hash "https://example.com/page?x=1"
      "https://www.youtube.com/watch?v=dQw4w9WgXcQ" "https://youtu.be/dQw4w9WgXcQ?si=abc"
      "dQw4w9WgXcQ".data (by decide) (by decide)⟩

end Tripper
